import Mathlib

/-!
Verification of the contract-intelligence system.

The repository ships the Next.js frontend (dashboard, upload page, contract
detail page) together with a README describing the FastAPI/Celery backend.
The backend modules (`app/services/scoring.py`, `app/tasks/celery_tasks.py`)
are not part of the shipped sources, so the completeness scorer, the job
status state machine and the executor retry policy are modelled from the
specification; the frontend behaviour (polling, upload guard, dashboard
search filter) is embedded directly from the TypeScript sources.
-/

namespace ContractIntelligence

/-- Modelled from the spec: the structured contract data produced by
`app/services/scoring.py` (missing from the shipped sources).  The scorer
only inspects, per expected field, whether the field is absent or empty, so
the model records one presence flag per expected field of the five scoring
categories (financial completeness, party identification, payment terms,
SLA definition, contact information). -/
structure ContractData where
  financial_total_value : Bool
  financial_currency : Bool
  financial_line_items : Bool
  customer_name : Bool
  customer_legal_entity : Bool
  vendor_name : Bool
  vendor_legal_entity : Bool
  payment_terms : Bool
  payment_schedules : Bool
  sla_performance_metrics : Bool
  sla_support_terms : Bool
  customer_address : Bool
  vendor_address : Bool
deriving DecidableEq

/-- The five scoring categories, in the fixed category order
financial → party → payment → SLA → contact. -/
inductive Category
  | financial
  | party
  | payment
  | sla
  | contact
deriving DecidableEq

/-- Modelled from the spec: fixed category weights
(financial 30, party 25, payment 20, SLA 15, contact 10). -/
def weight : Category → Nat
  | .financial => 30
  | .party => 25
  | .payment => 20
  | .sla => 15
  | .contact => 10

/-- Modelled from the spec: each category has a defined field set; the pair
lists the human-readable field identifier together with its presence flag,
in the fixed field order of the category. -/
def categoryFields (cd : ContractData) : Category → List (String × Bool)
  | .financial =>
      [("financial_details.total_value", cd.financial_total_value),
       ("financial_details.currency", cd.financial_currency),
       ("financial_details.line_items", cd.financial_line_items)]
  | .party =>
      [("customer.name", cd.customer_name),
       ("customer.legal_entity", cd.customer_legal_entity),
       ("vendor.name", cd.vendor_name),
       ("vendor.legal_entity", cd.vendor_legal_entity)]
  | .payment =>
      [("payment_structure.payment_terms", cd.payment_terms),
       ("payment_structure.schedules", cd.payment_schedules)]
  | .sla =>
      [("sla.performance_metrics", cd.sla_performance_metrics),
       ("sla.support_terms", cd.sla_support_terms)]
  | .contact =>
      [("customer.address", cd.customer_address),
       ("vendor.address", cd.vendor_address)]

/-- Number of fields of the set that are present. -/
def presentCount (fs : List (String × Bool)) : Nat :=
  (fs.filter fun f => f.2).length

/-- Identifiers of the fields of the set that are absent or empty, in
field order. -/
def missingOf (fs : List (String × Bool)) : List String :=
  (fs.filter fun f => !f.2).map fun f => f.1

/-- Modelled from the spec: category score
`weight × (fields_present / fields_expected)` rounded to one decimal place
(round half up), represented exactly in tenths of a point; a category with
an empty field set contributes 0. -/
def catTenths (cd : ContractData) (c : Category) : Nat :=
  let fs := categoryFields cd c
  let e := fs.length
  if e = 0 then 0 else (20 * weight c * presentCount fs + e) / (2 * e)

/-- Category score as a rational number of points. -/
def catScore (cd : ContractData) (c : Category) : ℚ :=
  (catTenths cd c : ℚ) / 10

/-- The five named category scores exposed as `score_breakdown`. -/
structure ScoreBreakdown where
  financial_completeness : ℚ
  party_identification : ℚ
  payment_terms : ℚ
  sla_definition : ℚ
  contact_information : ℚ
deriving DecidableEq

/-- Modelled from the spec: the per-category breakdown of the score. -/
def score_breakdown (cd : ContractData) : ScoreBreakdown :=
  ⟨catScore cd .financial, catScore cd .party, catScore cd .payment,
   catScore cd .sla, catScore cd .contact⟩

/-- Total score in tenths of a point. -/
def totalTenths (cd : ContractData) : Nat :=
  catTenths cd .financial + catTenths cd .party + catTenths cd .payment +
    catTenths cd .sla + catTenths cd .contact

/-- Modelled from the spec: the total completeness score, the sum of the
five category scores. -/
def totalScore (cd : ContractData) : ℚ :=
  (totalTenths cd : ℚ) / 10

/-- Modelled from the spec: every expected field across all categories whose
value is absent or empty, in the fixed category-then-field order. -/
def missing_fields (cd : ContractData) : List String :=
  missingOf (categoryFields cd .financial) ++
    missingOf (categoryFields cd .party) ++
    missingOf (categoryFields cd .payment) ++
    missingOf (categoryFields cd .sla) ++
    missingOf (categoryFields cd .contact)

/-- All expected fields across all five categories are present. -/
def allFieldsPresent (cd : ContractData) : Bool :=
  cd.financial_total_value && cd.financial_currency && cd.financial_line_items &&
    cd.customer_name && cd.customer_legal_entity && cd.vendor_name &&
    cd.vendor_legal_entity && cd.payment_terms && cd.payment_schedules &&
    cd.sla_performance_metrics && cd.sla_support_terms &&
    cd.customer_address && cd.vendor_address

lemma presentCount_le_length (fs : List (String × Bool)) :
    presentCount fs ≤ fs.length :=
  List.length_filter_le _ _

lemma catTenths_le (cd : ContractData) (c : Category) :
    catTenths cd c ≤ 10 * weight c := by
  unfold catTenths
  set fs := categoryFields cd c with hfs
  by_cases he : fs.length = 0
  · simp [he]
  · simp only [he, if_false]
    have hp : presentCount fs ≤ fs.length := presentCount_le_length fs
    have h1 : 20 * weight c * presentCount fs + fs.length ≤
        fs.length * (20 * weight c + 1) := by
      have := Nat.mul_le_mul_left (20 * weight c) hp
      nlinarith
    calc (20 * weight c * presentCount fs + fs.length) / (2 * fs.length)
        ≤ fs.length * (20 * weight c + 1) / (2 * fs.length) :=
          Nat.div_le_div_right h1
      _ = fs.length * (20 * weight c + 1) / (fs.length * 2) := by ring_nf
      _ = (20 * weight c + 1) / 2 := by
          exact Nat.mul_div_mul_left _ _ (Nat.pos_of_ne_zero he)
      _ = 10 * weight c := by omega

lemma catScore_nonneg (cd : ContractData) (c : Category) :
    0 ≤ catScore cd c := by
  unfold catScore
  positivity

lemma catScore_le (cd : ContractData) (c : Category) :
    catScore cd c ≤ (weight c : ℚ) := by
  unfold catScore
  rw [div_le_iff₀ (by norm_num : (0:ℚ) < 10)]
  have h := catTenths_le cd c
  have h2 : ((catTenths cd c : ℚ)) ≤ ((10 * weight c : ℕ) : ℚ) := by
    exact_mod_cast h
  push_cast at h2
  linarith

/-- Claim C1: for every contract_data input, the total completeness score
equals the sum of the five category scores of the breakdown and lies in
the closed interval [0, 100]. -/
theorem scorer_total_eq_sum_and_bounded (cd : ContractData) :
    totalScore cd =
        (score_breakdown cd).financial_completeness +
        (score_breakdown cd).party_identification +
        (score_breakdown cd).payment_terms +
        (score_breakdown cd).sla_definition +
        (score_breakdown cd).contact_information ∧
      0 ≤ totalScore cd ∧ totalScore cd ≤ 100 := by
  refine ⟨?_, ?_, ?_⟩
  · unfold totalScore totalTenths score_breakdown catScore
    push_cast
    ring
  · unfold totalScore
    positivity
  · unfold totalScore
    rw [div_le_iff₀ (by norm_num : (0:ℚ) < 10)]
    have h1 := catTenths_le cd .financial
    have h2 := catTenths_le cd .party
    have h3 := catTenths_le cd .payment
    have h4 := catTenths_le cd .sla
    have h5 := catTenths_le cd .contact
    have ht : totalTenths cd ≤ 1000 := by
      unfold totalTenths
      simp [weight] at h1 h2 h3 h4 h5
      omega
    have : ((totalTenths cd : ℕ) : ℚ) ≤ (1000 : ℚ) := by exact_mod_cast ht
    linarith


lemma missingOf_nil_of_all_present (fs : List (String × Bool))
    (h : presentCount fs = fs.length) : missingOf fs = [] := by
  unfold presentCount at h
  have h2 := List.length_eq_length_filter_add (l := fs) (fun f => f.2)
  beta_reduce at h2
  have h3 : (fs.filter fun f => !f.2).length = 0 := by omega
  rw [List.length_eq_zero] at h3
  simp [missingOf, h3]

/-- Claim C4: a contract_data with every expected field present scores
exactly 100 with an empty missing_fields list. -/
theorem scorer_all_present_scores_100 (cd : ContractData)
    (h : allFieldsPresent cd = true) :
    totalScore cd = 100 ∧ missing_fields cd = [] := by
  obtain ⟨f1, f2, f3, f4, f5, f6, f7, f8, f9, f10, f11, f12, f13⟩ := cd
  simp only [allFieldsPresent, Bool.and_eq_true] at h
  obtain ⟨⟨⟨⟨⟨⟨⟨⟨⟨⟨⟨⟨h1, h2⟩, h3⟩, h4⟩, h5⟩, h6⟩, h7⟩, h8⟩, h9⟩, h10⟩, h11⟩, h12⟩, h13⟩ := h
  subst h1 h2 h3 h4 h5 h6 h7 h8 h9 h10 h11 h12 h13
  constructor
  · show ((totalTenths _ : ℕ) : ℚ) / 10 = 100
    norm_num [totalTenths, catTenths, categoryFields, presentCount, weight]
  · rfl

/-- Witness for C4 at the all-present contract_data. -/
theorem scorer_all_present_scores_100_witness :
    totalScore ⟨true, true, true, true, true, true, true, true, true, true,
      true, true, true⟩ = 100 ∧
    missing_fields ⟨true, true, true, true, true, true, true, true, true,
      true, true, true, true⟩ = [] :=
  scorer_all_present_scores_100 _ rfl

/-- The fixed field identifier list of each category, in field order. -/
def fieldNames : Category → List String
  | .financial =>
      ["financial_details.total_value", "financial_details.currency",
       "financial_details.line_items"]
  | .party =>
      ["customer.name", "customer.legal_entity", "vendor.name",
       "vendor.legal_entity"]
  | .payment =>
      ["payment_structure.payment_terms", "payment_structure.schedules"]
  | .sla =>
      ["sla.performance_metrics", "sla.support_terms"]
  | .contact =>
      ["customer.address", "vendor.address"]

lemma map_fst_categoryFields (cd : ContractData) (c : Category) :
    ((categoryFields cd c).map fun f => f.1) = fieldNames c := by
  cases c <;> rfl

lemma missingOf_all_missing (fs : List (String × Bool))
    (h : presentCount fs = 0) : missingOf fs = fs.map fun f => f.1 := by
  unfold presentCount at h
  rw [List.length_eq_zero] at h
  have hall : ∀ f ∈ fs, f.2 = false := by
    intro f hf
    have := List.filter_eq_nil_iff.mp h f hf
    simpa using this
  unfold missingOf
  rw [List.filter_eq_self.mpr]
  intro a ha
  simp [hall a ha]

lemma catTenths_zero_of_none (cd : ContractData) (c : Category)
    (h : presentCount (categoryFields cd c) = 0) : catTenths cd c = 0 := by
  unfold catTenths
  by_cases he : (categoryFields cd c).length = 0
  · simp [he]
  · have hpos : 0 < (categoryFields cd c).length := Nat.pos_of_ne_zero he
    simp only [he, if_false, h, Nat.mul_zero, Nat.zero_add]
    exact Nat.div_eq_of_lt (by omega)

lemma missingOf_sublist_missing_fields (cd : ContractData) (c : Category) :
    (missingOf (categoryFields cd c)).Sublist (missing_fields cd) := by
  unfold missing_fields
  cases c
  · exact (((List.sublist_append_left _ _).trans
      (List.sublist_append_left _ _)).trans
      (List.sublist_append_left _ _)).trans (List.sublist_append_left _ _)
  · exact (((List.sublist_append_right _ _).trans
      (List.sublist_append_left _ _)).trans
      (List.sublist_append_left _ _)).trans (List.sublist_append_left _ _)
  · exact ((List.sublist_append_right _ _).trans
      (List.sublist_append_left _ _)).trans (List.sublist_append_left _ _)
  · exact (List.sublist_append_right _ _).trans (List.sublist_append_left _ _)
  · exact List.sublist_append_right _ _

/-- Claim C5: a contract_data missing every expected field of a category
scores 0 for that category, its missing segment is exactly the fixed field
identifier list of the category in field order, and that segment occurs
inside missing_fields, which keeps the fixed category-then-field order. -/
theorem scorer_missing_category_zero (cd : ContractData) (c : Category)
    (h : presentCount (categoryFields cd c) = 0) :
    catScore cd c = 0 ∧
      missingOf (categoryFields cd c) = fieldNames c ∧
      (fieldNames c).Sublist (missing_fields cd) := by
  refine ⟨?_, ?_, ?_⟩
  · unfold catScore
    rw [catTenths_zero_of_none cd c h]
    norm_num
  · rw [missingOf_all_missing _ h, map_fst_categoryFields]
  · have hs := missingOf_sublist_missing_fields cd c
    rwa [missingOf_all_missing _ h, map_fst_categoryFields] at hs

/-- Witness for C5 at the all-absent contract_data and the financial
category. -/
theorem scorer_missing_category_zero_witness :
    catScore ⟨false, false, false, false, false, false, false, false, false,
        false, false, false, false⟩ Category.financial = 0 ∧
      missingOf (categoryFields ⟨false, false, false, false, false, false,
        false, false, false, false, false, false, false⟩ Category.financial) =
        fieldNames Category.financial ∧
      (fieldNames Category.financial).Sublist
        (missing_fields ⟨false, false, false, false, false, false, false,
          false, false, false, false, false, false⟩) :=
  scorer_missing_category_zero _ _ rfl

/-- Claim C6: every score_breakdown value is non-negative and bounded by
its category ceiling (financial 30, party 25, payment 20, SLA 15,
contact 10). -/
theorem score_breakdown_within_ceilings (cd : ContractData) :
    (0 ≤ (score_breakdown cd).financial_completeness ∧
        (score_breakdown cd).financial_completeness ≤ 30) ∧
      (0 ≤ (score_breakdown cd).party_identification ∧
        (score_breakdown cd).party_identification ≤ 25) ∧
      (0 ≤ (score_breakdown cd).payment_terms ∧
        (score_breakdown cd).payment_terms ≤ 20) ∧
      (0 ≤ (score_breakdown cd).sla_definition ∧
        (score_breakdown cd).sla_definition ≤ 15) ∧
      (0 ≤ (score_breakdown cd).contact_information ∧
        (score_breakdown cd).contact_information ≤ 10) := by
  have h1 := catScore_le cd .financial
  have h2 := catScore_le cd .party
  have h3 := catScore_le cd .payment
  have h4 := catScore_le cd .sla
  have h5 := catScore_le cd .contact
  simp only [weight] at h1 h2 h3 h4 h5
  refine ⟨⟨catScore_nonneg _ _, ?_⟩, ⟨catScore_nonneg _ _, ?_⟩,
    ⟨catScore_nonneg _ _, ?_⟩, ⟨catScore_nonneg _ _, ?_⟩,
    ⟨catScore_nonneg _ _, ?_⟩⟩ <;>
    first
      | exact_mod_cast h1
      | exact_mod_cast h2
      | exact_mod_cast h3
      | exact_mod_cast h4
      | exact_mod_cast h5

/-- Claim C7: the scorer is a deterministic pure function: identical
contract_data inputs give identical breakdown, total and missing_fields. -/
theorem scorer_deterministic (cd₁ cd₂ : ContractData) (h : cd₁ = cd₂) :
    score_breakdown cd₁ = score_breakdown cd₂ ∧
      totalScore cd₁ = totalScore cd₂ ∧
      missing_fields cd₁ = missing_fields cd₂ := by
  subst h
  exact ⟨rfl, rfl, rfl⟩

/-- Witness for C7 at a concrete contract_data. -/
theorem scorer_deterministic_witness :
    score_breakdown ⟨true, false, true, false, true, false, true, false,
        true, false, true, false, true⟩ =
      score_breakdown ⟨true, false, true, false, true, false, true, false,
        true, false, true, false, true⟩ ∧
      totalScore ⟨true, false, true, false, true, false, true, false, true,
        false, true, false, true⟩ =
        totalScore ⟨true, false, true, false, true, false, true, false, true,
          false, true, false, true⟩ ∧
      missing_fields ⟨true, false, true, false, true, false, true, false,
        true, false, true, false, true⟩ =
        missing_fields ⟨true, false, true, false, true, false, true, false,
          true, false, true, false, true⟩ :=
  scorer_deterministic _ _ rfl

/-- Modelled from the spec: the job status values of the processing state
machine (also what the frontend matches on as strings). -/
inductive Status
  | pending
  | processing
  | completed
  | failed
deriving DecidableEq

/-- Modelled from the spec: the legal transitions of the processing state
machine.  Entry to `processing` happens by claiming a `pending` job or by a
retry of a `processing` job; `processing` ends in `completed` or `failed`;
the terminal states have no outbound transitions. -/
inductive Step : Status → Status → Prop
  | claim : Step .pending .processing
  | retry : Step .processing .processing
  | finish : Step .processing .completed
  | fail : Step .processing .failed

/-- Reachability along any finite sequence of legal transitions. -/
def Reaches : Status → Status → Prop :=
  Relation.ReflTransGen Step

/-- Claim C2: from `pending` the only state one transition away is
`processing`; `completed` and `failed` admit no outbound transition; and no
sequence of transitions reaches `pending` except the empty one, so a job
never returns to `pending` after leaving it. -/
theorem status_state_machine_forward_only :
    (∀ s, Step .pending s → s = .processing) ∧
      (∀ s, ¬ Step .completed s) ∧
      (∀ s, ¬ Step .failed s) ∧
      (∀ s, Reaches s .pending → s = .pending) := by
  refine ⟨?_, ?_, ?_, ?_⟩
  · intro s h
    cases h
    rfl
  · intro s h
    cases h
  · intro s h
    cases h
  · intro s h
    rcases Relation.ReflTransGen.cases_tail h with heq | ⟨c, _, hstep⟩
    · exact heq.symm
    · cases hstep

/-- Witness for C2 at concrete transitions. -/
theorem status_state_machine_forward_only_witness :
    Status.processing = Status.processing ∧ Status.pending = Status.pending :=
  ⟨status_state_machine_forward_only.1 _ Step.claim,
   status_state_machine_forward_only.2.2.2 _ Relation.ReflTransGen.refl⟩

/-- Modelled from the spec: the classified error kinds of the pipeline. -/
inductive ErrorKind
  | Unreadable
  | Corrupt
  | Transient
  | Permanent
  | MalformedResponse
  | RetriesExhausted
  | Cancelled
deriving DecidableEq

/-- Outcome of one extraction attempt as observed by the executor. -/
inductive Outcome
  | success
  | failure (k : ErrorKind)
deriving DecidableEq

/-- Final state of a job as left by the executor, carrying the attempt
count that was reached. -/
inductive FinalState
  | done (attempts : Nat)
  | failedWith (k : ErrorKind) (attempts : Nat)
  | stuck
deriving DecidableEq

/-- The job status corresponding to an executor final state. -/
def FinalState.status : FinalState → Status
  | .done _ => .completed
  | .failedWith _ _ => .failed
  | .stuck => .processing

/-- Modelled from the spec: the executor retry loop
(`app/tasks/celery_tasks.py` is missing from the shipped sources).  Each
list element is the outcome of the next attempt; entering an attempt
increments the attempt count; a success completes the job; a `Transient`
failure is re-attempted while the attempt count is below the ceiling and
exhausts the retries into `failed{RetriesExhausted}` once the ceiling is
reached; every other failure kind fails the job immediately. -/
def runFrom (ceiling : Nat) (attempts : Nat) : List Outcome → FinalState
  | [] => .stuck
  | o :: rest =>
    match o with
    | .success => .done (attempts + 1)
    | .failure .Transient =>
        if attempts + 1 < ceiling then runFrom ceiling (attempts + 1) rest
        else .failedWith .RetriesExhausted (attempts + 1)
    | .failure k => .failedWith k (attempts + 1)

/-- Run a fresh job (attempt count 0) against a list of attempt outcomes. -/
def runJob (ceiling : Nat) (outcomes : List Outcome) : FinalState :=
  runFrom ceiling 0 outcomes

lemma runFrom_transient_exhaust (ceiling : Nat) :
    ∀ k a, 1 ≤ k → a + k = ceiling →
      runFrom ceiling a (List.replicate k (Outcome.failure ErrorKind.Transient)) =
        FinalState.failedWith ErrorKind.RetriesExhausted ceiling := by
  intro k
  induction k with
  | zero => omega
  | succ n ih =>
      intro a _ hsum
      cases n with
      | zero =>
          simp only [List.replicate, runFrom]
          have hlt : ¬ a + 1 < ceiling := by omega
          simp [hlt]
          omega
      | succ m =>
          simp only [List.replicate, runFrom]
          have hlt : a + 1 < ceiling := by omega
          simp only [hlt, if_true]
          exact ih (a + 1) (by omega) (by omega)

lemma runFrom_transient_then_success (ceiling : Nat) :
    ∀ k a, a + k < ceiling →
      runFrom ceiling a
          (List.replicate k (Outcome.failure ErrorKind.Transient) ++
            [Outcome.success]) =
        FinalState.done (a + k + 1) := by
  intro k
  induction k with
  | zero =>
      intro a _
      simp [runFrom]
  | succ n ih =>
      intro a ha
      simp only [List.replicate, List.cons_append, runFrom]
      have hlt : a + 1 < ceiling := by omega
      simp only [hlt, if_true, List.append_eq]
      have := ih (a + 1) (by omega)
      rw [this]
      congr 1
      omega

/-- Claim C3: with a positive retry ceiling, a job failing `Transient` on
exactly `ceiling` consecutive attempts is left `failed` with kind
`RetriesExhausted` and attempt count equal to the ceiling, while one fewer
`Transient` failure followed by a success leaves the job `completed` with
attempt count equal to the ceiling. -/
theorem executor_retry_policy (ceiling : Nat) (h : 1 ≤ ceiling) :
    runJob ceiling (List.replicate ceiling (Outcome.failure ErrorKind.Transient)) =
        FinalState.failedWith ErrorKind.RetriesExhausted ceiling ∧
      (runJob ceiling
          (List.replicate ceiling (Outcome.failure ErrorKind.Transient))).status =
        Status.failed ∧
      runJob ceiling
          (List.replicate (ceiling - 1) (Outcome.failure ErrorKind.Transient) ++
            [Outcome.success]) = FinalState.done ceiling ∧
      (runJob ceiling
          (List.replicate (ceiling - 1) (Outcome.failure ErrorKind.Transient) ++
            [Outcome.success])).status = Status.completed := by
  have h1 := runFrom_transient_exhaust ceiling ceiling 0 h (by omega)
  have h2 := runFrom_transient_then_success ceiling (ceiling - 1) 0 (by omega)
  rw [show 0 + (ceiling - 1) + 1 = ceiling by omega] at h2
  refine ⟨h1, ?_, h2, ?_⟩
  · rw [show runJob ceiling _ = _ from h1]
    rfl
  · rw [show runJob ceiling _ = _ from h2]
    rfl

/-- Witness for C3 at the default ceiling of 3 attempts. -/
theorem executor_retry_policy_witness :
    runJob 3 (List.replicate 3 (Outcome.failure ErrorKind.Transient)) =
        FinalState.failedWith ErrorKind.RetriesExhausted 3 ∧
      (runJob 3 (List.replicate 3 (Outcome.failure ErrorKind.Transient))).status =
        Status.failed ∧
      runJob 3 (List.replicate 2 (Outcome.failure ErrorKind.Transient) ++
          [Outcome.success]) = FinalState.done 3 ∧
      (runJob 3 (List.replicate 2 (Outcome.failure ErrorKind.Transient) ++
          [Outcome.success])).status = Status.completed :=
  executor_retry_policy 3 (by omega)

/-- From `ContractDetailPage` (src/unnamed/part_000, line 202): the polling
interval passed to `setInterval`, in milliseconds. -/
def pollIntervalMs : Nat := 3000

/-- From `ContractDetailPage` (src/unnamed/part_000, lines 198-201): the
guard of the interval callback; the fetch runs exactly when the currently
held contract status is `pending` or `processing` (`none` models the page
holding no contract snapshot yet). -/
def pollTickFetches (st : Option String) : Bool :=
  (st == some "pending") || (st == some "processing")

/-- Claim C8: the detail page polls on a fixed 3-second interval, the
interval callback re-fetches exactly when the held status is `pending` or
`processing`, and a terminal status (`completed` or `failed`) never
triggers a polling fetch. -/
theorem detail_page_polling (st : Option String) :
    pollIntervalMs = 3000 ∧
      (pollTickFetches st = true ↔
        st = some "pending" ∨ st = some "processing") ∧
      pollTickFetches (some "completed") = false ∧
      pollTickFetches (some "failed") = false ∧
      pollTickFetches none = false := by
  refine ⟨rfl, ?_, by decide, by decide, by decide⟩
  simp [pollTickFetches]

/-- From `UploadPage.onDrop` (src/unnamed/part_002): the dropped file as
seen by the client-side guard. -/
structure UploadFile where
  type : String
  size : Nat
deriving DecidableEq

/-- Action the upload page takes for a dropped file: set a failure message
without any request, or issue the POST to the upload endpoint. -/
inductive UploadAction
  | reject (message : String)
  | post
deriving DecidableEq

/-- From `UploadPage.onDrop` (src/unnamed/part_002, lines 17-42): reject a
non-PDF MIME type, then reject a file strictly larger than
50 × 1024 × 1024 bytes, otherwise send the POST. -/
def onDrop (f : UploadFile) : UploadAction :=
  if f.type ≠ "application/pdf" then
    .reject "Only PDF files are accepted."
  else if f.size > 50 * 1024 * 1024 then
    .reject "File size must be less than 50MB."
  else
    .post

/-- Claim C9: the upload page posts exactly for files of MIME type
application/pdf of size at most 50 × 1024 × 1024 bytes; any violating file
produces the corresponding failure message and no request. -/
theorem upload_page_guard (f : UploadFile) :
    (onDrop f = UploadAction.post ↔
        f.type = "application/pdf" ∧ f.size ≤ 50 * 1024 * 1024) ∧
      (f.type ≠ "application/pdf" →
        onDrop f = UploadAction.reject "Only PDF files are accepted.") ∧
      (f.type = "application/pdf" → 50 * 1024 * 1024 < f.size →
        onDrop f = UploadAction.reject "File size must be less than 50MB.") := by
  unfold onDrop
  refine ⟨?_, ?_, ?_⟩
  · by_cases h1 : f.type = "application/pdf"
    · by_cases h2 : f.size > 50 * 1024 * 1024
      · simp [h1, h2]
      · simp [h1, h2]
        omega
    · simp [h1]
  · intro h
    simp [h]
  · intro h1 h2
    simp [h1, h2]

/-- Witness for C9: a plain-text file is rejected with the PDF message, an
oversized PDF is rejected with the size message, and a small PDF posts. -/
theorem upload_page_guard_witness :
    onDrop ⟨"text/plain", 10⟩ =
        UploadAction.reject "Only PDF files are accepted." ∧
      onDrop ⟨"application/pdf", 52428801⟩ =
        UploadAction.reject "File size must be less than 50MB." ∧
      onDrop ⟨"application/pdf", 1024⟩ = UploadAction.post :=
  ⟨(upload_page_guard ⟨"text/plain", 10⟩).2.1 (by decide),
   (upload_page_guard ⟨"application/pdf", 52428801⟩).2.2 rfl (by decide),
   (upload_page_guard ⟨"application/pdf", 1024⟩).1.mpr ⟨rfl, by decide⟩⟩

/-- From the dashboard (`src/frontend/app/page.tsx`): the contract-row
fields the client-side filter reads. -/
structure Contract where
  contract_id : String
  filename : String
  status : String
  customer_name : Option String
  vendor_name : Option String
deriving DecidableEq

/-- From `filteredContracts` (src/frontend/app/page.tsx, lines 69-77): keep
every contract when the search term is empty, otherwise match the
lowercased term as a substring of the lowercased filename, customer_name
or vendor_name (an absent optional field never matches). -/
def keepContract (searchTerm : String) (c : Contract) : Bool :=
  if searchTerm = "" then true
  else
    decide (searchTerm.toLower.toList <:+: c.filename.toLower.toList) ||
      (match c.customer_name with
       | some s => decide (searchTerm.toLower.toList <:+: s.toLower.toList)
       | none => false) ||
      (match c.vendor_name with
       | some s => decide (searchTerm.toLower.toList <:+: s.toLower.toList)
       | none => false)

/-- From `filteredContracts` (src/frontend/app/page.tsx, lines 69-77): the
client-side filter over the fetched contract list. -/
def filteredContracts (searchTerm : String) (cs : List Contract) :
    List Contract :=
  cs.filter (keepContract searchTerm)

lemma keepContract_iff (st : String) (c : Contract) :
    keepContract st c = true ↔
      st = "" ∨
        st.toLower.toList <:+: c.filename.toLower.toList ∨
        (∃ s, c.customer_name = some s ∧
          st.toLower.toList <:+: s.toLower.toList) ∨
        (∃ s, c.vendor_name = some s ∧
          st.toLower.toList <:+: s.toLower.toList) := by
  unfold keepContract
  by_cases h : st = ""
  · simp [h]
  · cases hc : c.customer_name <;> cases hv : c.vendor_name <;>
      simp [h, hc, hv, or_assoc]

/-- Claim C10: the dashboard filter keeps a contract exactly when the
search term is empty or the lowercased term is a substring of the
lowercased filename, customer_name or vendor_name, and the filtered list
preserves the relative order of the fetched list. -/
theorem dashboard_search_filter (st : String) (cs : List Contract) :
    (∀ c, c ∈ filteredContracts st cs ↔
        c ∈ cs ∧ (st = "" ∨
          st.toLower.toList <:+: c.filename.toLower.toList ∨
          (∃ s, c.customer_name = some s ∧
            st.toLower.toList <:+: s.toLower.toList) ∨
          (∃ s, c.vendor_name = some s ∧
            st.toLower.toList <:+: s.toLower.toList))) ∧
      (filteredContracts st cs).Sublist cs := by
  constructor
  · intro c
    rw [filteredContracts, List.mem_filter, keepContract_iff]
  · exact List.filter_sublist cs

end ContractIntelligence
